import Mathlib

/-!
Verification of the docker-volume-gcs driver against its specification.

The repository contains three evolutionary variants of the same driver.
Two of them are embedded here, because the claims cite both:

* `M`  — the variant in `src/main.go`: registry `cmds : map[bucket]exec.Cmd`,
  Mount both spawns and registers, Remove signals and waits, Create and
  Unmount are no-ops.
* `D1` — the refcounted variant in `src/unnamed/part_001`: registry
  `daemons : map[name]*daemon` where `daemon` carries a `refs` counter,
  Create registers, Mount starts the process, Unmount signals, waits,
  decrements and deletes at zero.

Machine-independent effects (process spawn results, the first line read from
the subprocess error stream, wait outcomes) are inputs to each operation.
Ghost state records spawned/live subprocesses and signals sent, so that
process-level claims can be stated.
-/

namespace GCSVol

/-! ## Path model: Go `path/filepath.Join` and `Clean` (unix), and `bucket` -/

/-- Split a character list on `'/'` (like `strings.Split(s, "/")`). -/
def splitSlash : List Char → List (List Char)
  | [] => [[]]
  | c :: rest =>
    match splitSlash rest with
    | [] => [[]]
    | g :: gs => if c = '/' then [] :: g :: gs else (c :: g) :: gs

/-- Component processing of Go `filepath.Clean`: drop empty and `"."`
segments, resolve `".."` by popping (kept literally at the front of a
relative path, dropped at the root of a rooted path). `acc` is the reversed
output. -/
def cleanSegs (rooted : Bool) : List (List Char) → List (List Char) → List (List Char)
  | [], acc => acc.reverse
  | seg :: rest, acc =>
    if seg = [] ∨ seg = ['.'] then cleanSegs rooted rest acc
    else if seg = ['.', '.'] then
      match acc with
      | [] => if rooted then cleanSegs rooted rest [] else cleanSegs rooted rest [seg]
      | a :: as =>
        if a = ['.', '.'] then cleanSegs rooted rest (seg :: a :: as)
        else cleanSegs rooted rest as
    else cleanSegs rooted rest (seg :: acc)

/-- Go `filepath.Clean` on unix, over a character list. -/
def goCleanL (p : List Char) : List Char :=
  match p with
  | [] => ['.']
  | c :: _ =>
    let rooted := c = '/'
    let body := List.intercalate ['/'] (cleanSegs rooted (splitSlash p) [])
    if rooted then '/' :: body
    else if body = [] then ['.'] else body

/-- Go `filepath.Join(a, b)` on unix: all-empty input yields `""`, empty
elements are skipped, otherwise the elements are joined with `"/"` and the
result is cleaned. -/
def goJoin (a b : String) : String :=
  if a.data = [] then (if b.data = [] then "" else ⟨goCleanL b.data⟩)
  else ⟨goCleanL (a.data ++ '/' :: b.data)⟩

/-- `driver.bucket` from `src/main.go`: the portion of the name before the
first `'/'`, or the whole name when it contains none
(`strings.Index(name, "/")` then `name[0:i]`). -/
def bucketL : List Char → List Char
  | [] => []
  | c :: rest => if c = '/' then [] else c :: bucketL rest

/-- `driver.bucket` lifted to `String`. -/
def bucket (name : String) : String := ⟨bucketL name.data⟩

/-- Go `strings.HasSuffix(s, sfx)`. -/
def strHasSuffix (s sfx : String) : Bool := sfx.data.isSuffixOf s.data

/-- The success line the driver scans for on the subprocess error stream. -/
def sentinel : String := "File system has been successfully mounted.\n"

/-! ## Association-list registries (Go `map` with `string` keys) -/

/-- Lookup (`m[k]`). -/
def lookupA {α : Type} : List (String × α) → String → Option α
  | [], _ => none
  | (k', v) :: rest, k => if k' = k then some v else lookupA rest k

/-- Insert or replace (`m[k] = v`). -/
def insertA {α : Type} : List (String × α) → String → α → List (String × α)
  | [], k, v => [(k, v)]
  | (k', v') :: rest, k, v =>
    if k' = k then (k, v) :: rest else (k', v') :: insertA rest k v

/-- Delete (`delete(m, k)`). -/
def eraseA {α : Type} : List (String × α) → String → List (String × α)
  | [], _ => []
  | (k', v) :: rest, k =>
    if k' = k then eraseA rest k else (k', v) :: eraseA rest k

/-- The keys of the registry. -/
def keysA {α : Type} (m : List (String × α)) : List String := m.map Prod.fst

/-! ## Common process and error model -/

/-- `os.ProcessState` as the driver reads it: `Exited()` and `Success()`. -/
structure PState where
  exited : Bool
  success : Bool
deriving DecidableEq

/-- The check `cmd.ProcessState != nil && cmd.ProcessState.Exited()`. -/
def psExited : Option PState → Bool
  | some ps => ps.exited
  | none => false

/-- The driver's failure taxonomy (both variants). `unexpectedOutput`
carries the literal first line read from the subprocess error stream, as
`errUnexpectedOutput{output: l}` in `main.go` and the string-built response
in `part_001` do. -/
inductive DErr where
  | zombie
  | unknownVolume
  | badRead
  | daemonDirty
  | mkdirFail
  | startFail
  | waitFail
  | unexpectedOutput (output : String)
deriving DecidableEq

/-- Environment outcome of the spawn-and-scan sequence in `main.go`'s
`Mount` (directory creation, `Start`, then `ReadString('\n')` on the tee'd
stderr pipe). `firstLine l` means a complete line `l` (ending in `'\n'`)
was read without error. -/
inductive MEnv where
  | mkdirFail
  | startFail
  | readFail
  | firstLine (l : String)
deriving DecidableEq

/-- Environment outcome of `Start` plus the first-line read in `part_001`'s
`Mount` (no directory creation happens there; `Create` did it). -/
inductive StartEnv where
  | startFail
  | readFail
  | firstLine (l : String)
deriving DecidableEq

/-- Wait outcome delivered by the OS for a first `Process.Wait`: `none` is
a wait-syscall error, `some b` is an exit whose `ProcessState.Success()`
equals `b`. -/
abbrev WaitRes := Option Bool

/-! ## Model `M`: the driver in `src/main.go`

`cmds` maps a bucket to the `exec.Cmd` registered for it. The stored value
is a copy (`map[string]exec.Cmd` holds values); its `ProcessState` is the
one captured at store time and is never updated by `cmd.Wait` (which the
code never calls — `Remove` calls `Process.Wait`, which does not touch
`cmd.ProcessState`). `waited` models the shared `*os.Process` having been
reaped. Ghost fields: `live` lists the buckets of spawned, not-yet-reaped
subprocesses in spawn order; `sigints` lists buckets whose process was sent
an interrupt signal. -/

structure MCmd where
  args : List String
  waited : Bool
  processState : Option PState
deriving DecidableEq

structure MState where
  root : String
  extra : List String
  cmds : List (String × MCmd)
  live : List String
  sigints : List String
deriving DecidableEq

/-- The initial driver state of `main.go`: empty registry, `root` from the
last command-line argument, `extra` the arguments forwarded to `gcsfuse`
(`os.Args[1:len(os.Args)-1]`). -/
def MState.init (root : String) (extra : List String) : MState :=
  ⟨root, extra, [], [], []⟩

/-- `driver.mountpoint` of `main.go`: `filepath.Join(root, name)`. -/
def M.mountpoint (s : MState) (name : String) : String := goJoin s.root name

/-- `driver.Mount` of `main.go`. An existing registry entry short-circuits
(zombie check, then success with `mountpoint(r.Name)`); otherwise the
directory for `mountpoint(bucket)` is created, a `gcsfuse` command is
built with arguments `extra ++ [bucket, mountpoint(bucket)]`, started, and
its first error-stream line is checked with
`strings.HasSuffix(l, sentinel)`. Only on success is the command stored
under the bucket. -/
def M.mount (s : MState) (name : String) (env : MEnv) :
    MState × Except DErr String :=
  let b := bucket name
  match lookupA s.cmds b with
  | some daemon =>
    if psExited daemon.processState then (s, .error .zombie)
    else (s, .ok (M.mountpoint s name))
  | none =>
    match env with
    | .mkdirFail => (s, .error .mkdirFail)
    | .startFail => (s, .error .startFail)
    | .readFail => ({s with live := s.live ++ [b]}, .error .badRead)
    | .firstLine l =>
      let cmd : MCmd := ⟨s.extra ++ [b, M.mountpoint s b], false, none⟩
      if strHasSuffix l sentinel then
        ({s with cmds := insertA s.cmds b cmd, live := s.live ++ [b]},
         .ok (M.mountpoint s name))
      else
        ({s with live := s.live ++ [b]}, .error (.unexpectedOutput l))

/-- `driver.Remove` of `main.go`. With no entry for the bucket it is a
logged no-op; with an entry it sends an interrupt signal, waits for the
process, and reports wait errors or a dirty exit. The registry entry is
never deleted. A second wait on the same process fails. -/
def M.remove (s : MState) (name : String) (w : WaitRes) :
    MState × Except DErr Unit :=
  let b := bucket name
  match lookupA s.cmds b with
  | none => (s, .ok ())
  | some daemon =>
    let s1 := {s with sigints := s.sigints ++ [b]}
    if daemon.waited then (s1, .error .waitFail)
    else
      match w with
      | none => (s1, .error .waitFail)
      | some success =>
        let s2 := {s1 with cmds := insertA s1.cmds b {daemon with waited := true},
                           live := s1.live.erase b}
        if success then (s2, .ok ()) else (s2, .error .daemonDirty)

/-- `driver.Create` of `main.go`: `return nil`. -/
def M.create (s : MState) (_name : String) : MState × Except DErr Unit :=
  (s, .ok ())

/-- `driver.Unmount` of `main.go`: `return nil`. -/
def M.unmount (s : MState) (_name : String) : MState × Except DErr Unit :=
  (s, .ok ())

/-- `driver.Get` of `main.go`: always succeeds with the requested name and
`mountpoint(r.Name)`; neither the registry nor the filesystem is read. -/
def M.get (s : MState) (name : String) :
    MState × Except DErr (String × String) :=
  (s, .ok (name, M.mountpoint s name))

/-- `driver.Path` of `main.go`: always succeeds with `mountpoint(r.Name)`. -/
def M.path (s : MState) (name : String) : MState × Except DErr String :=
  (s, .ok (M.mountpoint s name))

/-- One plugin call against the `main.go` driver, with its environment. -/
inductive MOp where
  | create (name : String)
  | mount (name : String) (env : MEnv)
  | unmount (name : String)
  | remove (name : String) (w : WaitRes)
deriving DecidableEq

/-- State transition of one call (the response is dropped). -/
def Mstep (s : MState) : MOp → MState
  | .create name => (M.create s name).1
  | .mount name env => (M.mount s name env).1
  | .unmount name => (M.unmount s name).1
  | .remove name w => (M.remove s name w).1

/-- Run a sequence of calls. -/
def Mrun (s : MState) : List MOp → MState
  | [] => s
  | op :: ops => Mrun (Mstep s op) ops

/-! ## Model `D1`: the refcounted driver in `src/unnamed/part_001`

`daemons` maps the *full requested volume name* (`r.Name` — this variant
derives no bucket) to a `daemon{*exec.Cmd, refs}`. `Create` registers an
unstarted command, `Mount` increments `refs` and starts it, `Unmount`
signals, waits, decrements and deletes the entry when `refs` hits zero.
`stderrSet`/`started`/`waited` model `exec.Cmd.Stderr`, `exec.Cmd.Process`
and the process having been reaped; `processState` models
`exec.Cmd.ProcessState`, which only `cmd.Wait` would set — this code calls
`Process.Wait`, so it stays `none`. Ghost fields as in `MState`, plus
`attempts` (names whose `refs++` executed), `decs` (names whose `refs--`
executed), `mountOks` (successful `Mount` responses) and `unmountOks`
(error-free `Unmount` responses). -/

structure D1Cmd where
  args : List String
  stderrSet : Bool
  started : Bool
  waited : Bool
  processState : Option PState
deriving DecidableEq

structure D1Daemon where
  cmd : D1Cmd
  refs : Int
deriving DecidableEq

structure D1State where
  root : String
  jwt : String
  daemons : List (String × D1Daemon)
  live : List String
  sigints : List String
  attempts : List String
  decs : List String
  mountOks : List String
  unmountOks : List String
deriving DecidableEq

/-- The initial driver state of `part_001`: empty registry, `root` and
`jwt` from the parsed flags. -/
def D1State.init (root jwt : String) : D1State :=
  ⟨root, jwt, [], [], [], [], [], [], []⟩

/-- `driver.mountpoint` of `part_001`: `filepath.Join(d.root, name)`. -/
def D1.mountpoint (s : D1State) (name : String) : String := goJoin s.root name

/-- Result of `part_001`'s `Unmount`: a plugin response, or the runtime
crash that calling `daemon.Process.Signal` on a never-started command
(`Process == nil`) produces. -/
inductive URes where
  | ok
  | err (e : DErr)
  | crash
deriving DecidableEq

/-- `driver.Create` of `part_001`. An existing entry is accepted when its
`ProcessState` is `nil` or its `refs` are positive, and rejected as a
zombie otherwise; a fresh name gets its mountpoint directory created and an
unstarted `gcsfuse` command (with `--key-file jwt` when configured,
then `r.Name` and the mountpoint) registered with `refs = 0`. -/
def D1.create (s : D1State) (name : String) (mkdirOk : Bool) :
    D1State × Except DErr Unit :=
  match lookupA s.daemons name with
  | some dmn =>
    if dmn.cmd.processState = none ∨ dmn.refs > 0 then (s, .ok ())
    else (s, .error .zombie)
  | none =>
    if mkdirOk then
      let args := (if s.jwt = "" then [] else ["--key-file", s.jwt])
                  ++ [name, D1.mountpoint s name]
      ({s with daemons := insertA s.daemons name ⟨⟨args, false, false, false, none⟩, 0⟩},
       .ok ())
    else (s, .error .mkdirFail)

/-- `driver.Mount` of `part_001`. Unknown names fail; a zombie entry
fails; otherwise `refs` is incremented *before* anything can fail, then
`StderrPipe` (which errors once `Stderr` is set or the process started),
`Start`, and the first-line scan with `strings.HasSuffix(l, sentinel)`
run. The entry stays registered on every path. -/
def D1.mount (s : D1State) (name : String) (env : StartEnv) :
    D1State × Except DErr String :=
  match lookupA s.daemons name with
  | none => (s, .error .unknownVolume)
  | some dmn =>
    if psExited dmn.cmd.processState then (s, .error .zombie)
    else
      let refs' := dmn.refs + 1
      let s1 := {s with daemons := insertA s.daemons name ⟨dmn.cmd, refs'⟩,
                        attempts := s.attempts ++ [name]}
      if dmn.cmd.stderrSet ∨ dmn.cmd.started then (s1, .error .badRead)
      else
        let piped : D1Cmd := ⟨dmn.cmd.args, true, false, dmn.cmd.waited, dmn.cmd.processState⟩
        match env with
        | .startFail =>
          ({s1 with daemons := insertA s1.daemons name ⟨piped, refs'⟩},
           .error .startFail)
        | .readFail =>
          ({s1 with daemons := insertA s1.daemons name ⟨{piped with started := true}, refs'⟩,
                    live := s1.live ++ [name]},
           .error .badRead)
        | .firstLine l =>
          let s2 := {s1 with
                      daemons := insertA s1.daemons name ⟨{piped with started := true}, refs'⟩,
                      live := s1.live ++ [name]}
          if strHasSuffix l sentinel then
            ({s2 with mountOks := s2.mountOks ++ [name]}, .ok (D1.mountpoint s name))
          else (s2, .error (.unexpectedOutput l))

/-- `driver.Unmount` of `part_001`. Unknown names fail with the
unknown-volume error. Otherwise the process is signalled and waited *first*
(a never-started command crashes on the nil `Process`; an already-reaped
one makes `Wait` fail); wait errors and dirty exits return early, leaving
`refs` and the entry untouched; only a clean exit decrements `refs` and
deletes the entry when the count reaches zero. -/
def D1.unmount (s : D1State) (name : String) (w : WaitRes) : D1State × URes :=
  match lookupA s.daemons name with
  | none => (s, .err .unknownVolume)
  | some dmn =>
    if dmn.cmd.started then
      let s1 := {s with sigints := s.sigints ++ [name]}
      if dmn.cmd.waited then (s1, .err .waitFail)
      else
        match w with
        | none => (s1, .err .waitFail)
        | some success =>
          let reaped : D1Cmd := {dmn.cmd with waited := true}
          let s2 := {s1 with daemons := insertA s1.daemons name ⟨reaped, dmn.refs⟩,
                             live := s1.live.erase name}
          if success then
            let refs' := dmn.refs - 1
            let s3 := {s2 with daemons := insertA s2.daemons name ⟨reaped, refs'⟩,
                               decs := s2.decs ++ [name]}
            if refs' = 0 then
              ({s3 with daemons := eraseA s3.daemons name,
                        unmountOks := s3.unmountOks ++ [name]}, .ok)
            else ({s3 with unmountOks := s3.unmountOks ++ [name]}, .ok)
          else (s2, .err .daemonDirty)
    else (s, .crash)

/-- `driver.Remove` of `part_001`: an unconditional empty response. -/
def D1.remove (s : D1State) (_name : String) : D1State × URes := (s, .ok)

/-- `driver.Path` of `part_001`: always succeeds with `mountpoint(r.Name)`. -/
def D1.path (s : D1State) (name : String) : D1State × Except DErr String :=
  (s, .ok (D1.mountpoint s name))

/-- One plugin call against the `part_001` driver, with its environment. -/
inductive D1Op where
  | create (name : String) (mkdirOk : Bool)
  | mount (name : String) (env : StartEnv)
  | unmount (name : String) (w : WaitRes)
  | remove (name : String)
deriving DecidableEq

/-- State transition of one call (the response is dropped). -/
def D1step (s : D1State) : D1Op → D1State
  | .create name mk => (D1.create s name mk).1
  | .mount name env => (D1.mount s name env).1
  | .unmount name w => (D1.unmount s name w).1
  | .remove name => (D1.remove s name).1

/-- Run a sequence of calls. -/
def D1run (s : D1State) : List D1Op → D1State
  | [] => s
  | op :: ops => D1run (D1step s op) ops

/-- The registered reference count of a name, zero when absent. -/
def refsOf (s : D1State) (n : String) : Int :=
  match lookupA s.daemons n with
  | some d => d.refs
  | none => 0

/-- The parts of a `part_001` state that the reference-count invariant
reads. -/
structure D1Core where
  daemons : List (String × D1Daemon)
  attempts : List String
  decs : List String

/-- Projection to the invariant-relevant parts. -/
def D1State.core (s : D1State) : D1Core := ⟨s.daemons, s.attempts, s.decs⟩

/-- The reference count read off the invariant-relevant projection. -/
def refsOfC (c : D1Core) (n : String) : Int :=
  match lookupA c.daemons n with
  | some d => d.refs
  | none => 0

/-- Reference-count invariant of the `part_001` driver: keys are unique;
for every name, the registered count equals the number of `refs++`
executions minus the number of `refs--` executions for that name; counts
are never negative; and every entry whose command was started has a
positive count. -/
def coreInv (c : D1Core) : Prop :=
  (keysA c.daemons).Nodup ∧
  ∀ n : String,
    refsOfC c n = (c.attempts.count n : Int) - (c.decs.count n : Int) ∧
    0 ≤ refsOfC c n ∧
    ∀ d, lookupA c.daemons n = some d → d.cmd.started = true → 1 ≤ d.refs

/-! ## Concrete scenarios used by counterexamples and witnesses -/

/-- A concrete `main.go` start state with root `/r` and no extra flags. -/
def M0 : MState := MState.init "/r" []

/-- A concrete `part_001` start state with root `/r` and no JWT. -/
def D0 : D1State := D1State.init "/r" ""

/-- A first stderr line that is not the success sentinel. -/
def lineBad : String := "daemon: bucket does not exist\n"

/-- A first stderr line that ends with the sentinel without being equal to
it (gcsfuse log lines carry a prefix before the message). -/
def lineNoisy : String := "main: File system has been successfully mounted.\n"

/-- `part_001` scenario for C3: create, mount successfully, mount again
(fails in `StderrPipe` but still bumps `refs` to 2), then unmount once
with a clean wait. -/
def C3ops : List D1Op :=
  [.create "b1" true, .mount "b1" (.firstLine sentinel),
   .mount "b1" (.firstLine sentinel), .unmount "b1" (some true)]

/-- `part_001` scenario for C4: create, then a mount whose first line is
not the sentinel. -/
def C4ops : List D1Op := [.create "b4" true, .mount "b4" (.firstLine lineBad)]

/-- `part_001` state after a failed-sentinel mount of a created volume. -/
def C6st : D1State := (D1.mount (D1.create D0 "b6" true).1 "b6" (.firstLine lineBad)).1

/-- `part_001` state holding one successfully mounted volume with
`refs = 1`. -/
def C7st : D1State := D1run D0 [.create "b7" true, .mount "b7" (.firstLine sentinel)]

/-- `main.go` state holding one successfully mounted bucket. -/
def C9st : MState := Mrun M0 [.mount "b9" (.firstLine sentinel)]

/-! ## Registry lemmas -/

@[simp] theorem keysA_nil {α : Type} : keysA ([] : List (String × α)) = [] := rfl

@[simp] theorem keysA_cons {α : Type} (p : String × α) (m : List (String × α)) :
    keysA (p :: m) = p.1 :: keysA m := rfl

theorem lookupA_insertA_self {α : Type} (m : List (String × α)) (k : String) (v : α) :
    lookupA (insertA m k v) k = some v := by
  induction m with
  | nil => simp [insertA, lookupA]
  | cons p rest ih =>
    by_cases h : p.1 = k
    · simp [insertA, lookupA, h]
    · simp [insertA, lookupA, h, ih]

theorem lookupA_insertA_ne {α : Type} (m : List (String × α)) (k k' : String) (v : α)
    (h : k' ≠ k) : lookupA (insertA m k v) k' = lookupA m k' := by
  induction m with
  | nil => simp [insertA, lookupA, Ne.symm h]
  | cons p rest ih =>
    by_cases hp : p.1 = k
    · simp [insertA, lookupA, hp, Ne.symm h]
    · by_cases hq : p.1 = k'
      · simp [insertA, lookupA, hp, hq, h]
      · simp [insertA, lookupA, hp, hq, ih]

theorem lookupA_eraseA_self {α : Type} (m : List (String × α)) (k : String) :
    lookupA (eraseA m k) k = none := by
  induction m with
  | nil => simp [eraseA, lookupA]
  | cons p rest ih =>
    by_cases h : p.1 = k
    · simpa [eraseA, h] using ih
    · simpa [eraseA, lookupA, h] using ih

theorem lookupA_eraseA_ne {α : Type} (m : List (String × α)) (k k' : String)
    (h : k' ≠ k) : lookupA (eraseA m k) k' = lookupA m k' := by
  induction m with
  | nil => simp [eraseA, lookupA]
  | cons p rest ih =>
    by_cases hp : p.1 = k
    · simpa [eraseA, lookupA, hp, Ne.symm h] using ih
    · by_cases hq : p.1 = k'
      · simp [eraseA, lookupA, hp, hq, h]
      · simpa [eraseA, lookupA, hp, hq] using ih

theorem insertA_insertA {α : Type} (m : List (String × α)) (k : String) (a b : α) :
    insertA (insertA m k a) k b = insertA m k b := by
  induction m with
  | nil => simp [insertA]
  | cons p rest ih =>
    by_cases h : p.1 = k
    · simp [insertA, h]
    · simp [insertA, h, ih]

theorem keysA_insertA_of_lookupA {α : Type} (m : List (String × α)) (k : String)
    (v w : α) (hl : lookupA m k = some w) :
    keysA (insertA m k v) = keysA m := by
  induction m with
  | nil => simp [lookupA] at hl
  | cons p rest ih =>
    by_cases h : p.1 = k
    · simp [insertA, h]
    · simp [lookupA, h] at hl
      simp [insertA, h, ih hl]

theorem mem_keysA_insertA {α : Type} (m : List (String × α)) (k x : String) (v : α)
    (hx : x ∈ keysA (insertA m k v)) : x ∈ keysA m ∨ x = k := by
  induction m with
  | nil =>
    simp [insertA] at hx
    exact Or.inr hx
  | cons p rest ih =>
    by_cases h : p.1 = k
    · simp [insertA, h] at hx
      rcases hx with hx | hx
      · exact Or.inr hx
      · exact Or.inl (by simp [hx])
    · simp [insertA, h] at hx
      rcases hx with hx | hx
      · exact Or.inl (by simp [hx])
      · rcases ih hx with hh | hh
        · exact Or.inl (by simp [hh])
        · exact Or.inr hh

theorem mem_keysA_eraseA {α : Type} (m : List (String × α)) (k x : String)
    (hx : x ∈ keysA (eraseA m k)) : x ∈ keysA m := by
  induction m with
  | nil => simp [eraseA] at hx
  | cons p rest ih =>
    by_cases h : p.1 = k
    · simp [eraseA, h] at hx
      exact (by simp [ih hx])
    · simp [eraseA, h] at hx
      rcases hx with hx | hx
      · simp [hx]
      · simp [ih hx]

theorem keysA_insertA_nodup {α : Type} (m : List (String × α)) (k : String) (v : α)
    (h : (keysA m).Nodup) : (keysA (insertA m k v)).Nodup := by
  induction m with
  | nil => simp [insertA]
  | cons p rest ih =>
    simp at h
    by_cases hp : p.1 = k
    · simp [insertA, hp]
      exact ⟨by rw [← hp]; exact h.1, h.2⟩
    · simp [insertA, hp]
      refine ⟨?_, ih h.2⟩
      intro hmem
      rcases mem_keysA_insertA rest k p.1 v hmem with hh | hh
      · exact h.1 hh
      · exact hp hh

theorem keysA_eraseA_nodup {α : Type} (m : List (String × α)) (k : String)
    (h : (keysA m).Nodup) : (keysA (eraseA m k)).Nodup := by
  induction m with
  | nil => simp [eraseA]
  | cons p rest ih =>
    simp at h
    by_cases hp : p.1 = k
    · simpa [eraseA, hp] using ih h.2
    · simp [eraseA, hp]
      exact ⟨fun hmem => h.1 (mem_keysA_eraseA rest k p.1 hmem), ih h.2⟩

/-! ## Invariant machinery -/

theorem eraseA_insertA {α : Type} (m : List (String × α)) (k : String) (v : α) :
    eraseA (insertA m k v) k = eraseA m k := by
  induction m with
  | nil => simp [insertA, eraseA]
  | cons p rest ih =>
    by_cases h : p.1 = k
    · simp [insertA, eraseA, h]
    · simp [insertA, eraseA, h, ih]

/-- The registry of `main.go` after any `Mount` call: unchanged, or one
fresh command inserted under the bucket. -/
theorem Mmount_cmds (s : MState) (name : String) (env : MEnv) :
    (M.mount s name env).1.cmds = s.cmds ∨
    ∃ c, (M.mount s name env).1.cmds = insertA s.cmds (bucket name) c := by
  unfold M.mount
  cases hl : lookupA s.cmds (bucket name) with
  | some daemon =>
    by_cases he : psExited daemon.processState
    · exact Or.inl (by simp [hl, he])
    · exact Or.inl (by simp [hl, he])
  | none =>
    cases env with
    | mkdirFail => exact Or.inl (by simp [hl])
    | startFail => exact Or.inl (by simp [hl])
    | readFail => exact Or.inl (by simp [hl])
    | firstLine l =>
      by_cases hs : strHasSuffix l sentinel
      · exact Or.inr ⟨⟨s.extra ++ [bucket name, M.mountpoint s (bucket name)], false, none⟩,
          by simp [hl, hs]⟩
      · exact Or.inl (by simp [hl, hs])

/-- The registry of `main.go` after any `Remove` call: unchanged, or one
existing entry overwritten (with its reap flag set) under the bucket. -/
theorem Mremove_cmds (s : MState) (name : String) (w : WaitRes) :
    (M.remove s name w).1.cmds = s.cmds ∨
    ∃ c, (M.remove s name w).1.cmds = insertA s.cmds (bucket name) c := by
  unfold M.remove
  cases hl : lookupA s.cmds (bucket name) with
  | none => exact Or.inl (by simp [hl])
  | some daemon =>
    by_cases hw : daemon.waited
    · exact Or.inl (by simp [hl, hw])
    · cases w with
      | none => exact Or.inl (by simp [hl, hw])
      | some success =>
        by_cases hs : success
        · exact Or.inr ⟨{daemon with waited := true}, by simp [hl, hw, hs]⟩
        · exact Or.inr ⟨{daemon with waited := true}, by simp [hl, hw, hs]⟩

/-- Key uniqueness is preserved by every `main.go` call. -/
theorem M_nodup_step (s : MState) (op : MOp)
    (h : (keysA s.cmds).Nodup) : (keysA (Mstep s op).cmds).Nodup := by
  cases op with
  | create name => exact h
  | unmount name => exact h
  | mount name env =>
    rcases Mmount_cmds s name env with hc | ⟨c, hc⟩
    · rw [Mstep, hc]; exact h
    · rw [Mstep, hc]; exact keysA_insertA_nodup _ _ _ h
  | remove name w =>
    rcases Mremove_cmds s name w with hc | ⟨c, hc⟩
    · rw [Mstep, hc]; exact h
    · rw [Mstep, hc]; exact keysA_insertA_nodup _ _ _ h

/-- Key uniqueness holds in every reachable `main.go` state. -/
theorem M_nodup_run (s : MState) (ops : List MOp)
    (h : (keysA s.cmds).Nodup) : (keysA (Mrun s ops).cmds).Nodup := by
  induction ops generalizing s with
  | nil => exact h
  | cons op ops ih => exact ih (Mstep s op) (M_nodup_step s op h)

/-- `main.go`'s `Mount` leaves the whole state untouched when an entry for
the bucket already exists (whether or not it passes the zombie check). -/
theorem M_mount_frame (s : MState) (name : String) (env : MEnv) (c : MCmd)
    (h : lookupA s.cmds (bucket name) = some c) :
    (M.mount s name env).1 = s := by
  unfold M.mount
  by_cases he : psExited c.processState
  · simp [h, he]
  · simp [h, he]

/-- Effect of `part_001`'s `Create` on registry and counters: unchanged,
or a fresh entry with `refs = 0` inserted for a previously absent name. -/
theorem D1create_core (s : D1State) (name : String) (mk : Bool) :
    (D1.create s name mk).1.core = s.core ∨
    (lookupA s.daemons name = none ∧
     ∃ c : D1Cmd, c.started = false ∧
       (D1.create s name mk).1.core = ⟨insertA s.daemons name ⟨c, 0⟩, s.attempts, s.decs⟩) := by
  unfold D1.create
  cases hl : lookupA s.daemons name with
  | some dmn =>
    by_cases hz : dmn.cmd.processState = none ∨ dmn.refs > 0
    · exact Or.inl (by simp [hl, hz])
    · exact Or.inl (by simp [hl, hz])
  | none =>
    by_cases hm : mk
    · exact Or.inr ⟨rfl,
        ⟨(if s.jwt = "" then [] else ["--key-file", s.jwt]) ++ [name, D1.mountpoint s name],
         false, false, false, none⟩, rfl, by simp [hl, hm, D1State.core]⟩
    · exact Or.inl (by simp [hl, hm])

/-- Effect of `part_001`'s `Mount` on registry and counters: unchanged, or
the entry's `refs` incremented (command fields possibly updated) together
with one `attempts` tick — on every path, including all failing ones. -/
theorem D1mount_core (s : D1State) (name : String) (env : StartEnv) :
    (D1.mount s name env).1.core = s.core ∨
    ∃ dmn : D1Daemon, ∃ c : D1Cmd, lookupA s.daemons name = some dmn ∧
      (D1.mount s name env).1.core =
        ⟨insertA s.daemons name ⟨c, dmn.refs + 1⟩, s.attempts ++ [name], s.decs⟩ := by
  unfold D1.mount
  cases hl : lookupA s.daemons name with
  | none => exact Or.inl (by simp [hl])
  | some dmn =>
    by_cases hz : psExited dmn.cmd.processState
    · exact Or.inl (by simp [hl, hz])
    · by_cases hp : dmn.cmd.stderrSet ∨ dmn.cmd.started
      · exact Or.inr ⟨dmn, dmn.cmd, rfl, by simp [hl, hz, hp, D1State.core]⟩
      · cases env with
        | startFail =>
          refine Or.inr ⟨dmn, ⟨dmn.cmd.args, true, false, dmn.cmd.waited, dmn.cmd.processState⟩,
            rfl, ?_⟩
          simp [hl, hz, hp, D1State.core, insertA_insertA]
        | readFail =>
          refine Or.inr ⟨dmn, ⟨dmn.cmd.args, true, true, dmn.cmd.waited, dmn.cmd.processState⟩,
            rfl, ?_⟩
          simp [hl, hz, hp, D1State.core, insertA_insertA]
        | firstLine l =>
          by_cases hs : strHasSuffix l sentinel
          · refine Or.inr ⟨dmn, ⟨dmn.cmd.args, true, true, dmn.cmd.waited, dmn.cmd.processState⟩,
              rfl, ?_⟩
            simp [hl, hz, hp, hs, D1State.core, insertA_insertA]
          · refine Or.inr ⟨dmn, ⟨dmn.cmd.args, true, true, dmn.cmd.waited, dmn.cmd.processState⟩,
              rfl, ?_⟩
            simp [hl, hz, hp, hs, D1State.core, insertA_insertA]

/-- Effect of `part_001`'s `Unmount` on registry and counters: unchanged
(unknown name, never-started crash, wait failure), or — for a started
entry — the reap flag set with `refs` untouched (dirty exit), or a
decrement with one `decs` tick, keeping the entry when the new count is
nonzero and deleting it when the count was 1. -/
theorem D1unmount_core (s : D1State) (name : String) (w : WaitRes) :
    (D1.unmount s name w).1.core = s.core ∨
    ∃ dmn : D1Daemon, lookupA s.daemons name = some dmn ∧ dmn.cmd.started = true ∧
      ((D1.unmount s name w).1.core =
          ⟨insertA s.daemons name ⟨{dmn.cmd with waited := true}, dmn.refs⟩,
           s.attempts, s.decs⟩ ∨
       (dmn.refs - 1 ≠ 0 ∧
        (D1.unmount s name w).1.core =
          ⟨insertA s.daemons name ⟨{dmn.cmd with waited := true}, dmn.refs - 1⟩,
           s.attempts, s.decs ++ [name]⟩) ∨
       (dmn.refs = 1 ∧
        (D1.unmount s name w).1.core =
          ⟨eraseA s.daemons name, s.attempts, s.decs ++ [name]⟩)) := by
  unfold D1.unmount
  cases hl : lookupA s.daemons name with
  | none => exact Or.inl (by simp [hl])
  | some dmn =>
    by_cases hst : dmn.cmd.started
    · by_cases hw : dmn.cmd.waited
      · exact Or.inl (by simp [hl, hst, hw, D1State.core])
      · cases w with
        | none => exact Or.inl (by simp [hl, hst, hw, D1State.core])
        | some success =>
          by_cases hs : success
          · by_cases hz : dmn.refs - 1 = 0
            · refine Or.inr ⟨dmn, rfl, hst, Or.inr (Or.inr ⟨by omega, ?_⟩)⟩
              simp [hl, hst, hw, hs, hz, D1State.core, insertA_insertA, eraseA_insertA]
            · refine Or.inr ⟨dmn, rfl, hst, Or.inr (Or.inl ⟨hz, ?_⟩)⟩
              simp [hl, hst, hw, hs, hz, D1State.core, insertA_insertA]
          · refine Or.inr ⟨dmn, rfl, hst, Or.inl ?_⟩
            simp [hl, hst, hw, hs, D1State.core]
    · exact Or.inl (by simp [hl, hst])

theorem coreInv_insert_fresh (c : D1Core) (name : String) (cm : D1Cmd)
    (hl : lookupA c.daemons name = none) (hcm : cm.started = false)
    (h : coreInv c) :
    coreInv ⟨insertA c.daemons name ⟨cm, 0⟩, c.attempts, c.decs⟩ := by
  obtain ⟨hnd, hinv⟩ := h
  refine ⟨keysA_insertA_nodup _ _ _ hnd, ?_⟩
  intro n
  by_cases hn : n = name
  · subst hn
    have h0 := (hinv n).1
    simp only [refsOfC, hl] at h0
    refine ⟨?_, ?_, ?_⟩
    · simp only [refsOfC, lookupA_insertA_self]
      exact h0
    · simp only [refsOfC, lookupA_insertA_self]
      omega
    · intro d hd hds
      rw [lookupA_insertA_self] at hd
      cases hd
      rw [hcm] at hds
      cases hds
  · have hne := lookupA_insertA_ne c.daemons name n ⟨cm, 0⟩ hn
    refine ⟨?_, ?_, ?_⟩
    · simp only [refsOfC, hne]
      exact (hinv n).1
    · simp only [refsOfC, hne]
      exact (hinv n).2.1
    · intro d hd hds
      rw [hne] at hd
      exact (hinv n).2.2 d hd hds

theorem coreInv_insert_bump (c : D1Core) (name : String) (dmn : D1Daemon) (cm : D1Cmd)
    (hl : lookupA c.daemons name = some dmn) (h : coreInv c) :
    coreInv ⟨insertA c.daemons name ⟨cm, dmn.refs + 1⟩, c.attempts ++ [name], c.decs⟩ := by
  obtain ⟨hnd, hinv⟩ := h
  refine ⟨keysA_insertA_nodup _ _ _ hnd, ?_⟩
  intro n
  by_cases hn : n = name
  · subst hn
    have h0 := (hinv n).1
    have h1 := (hinv n).2.1
    simp only [refsOfC, hl] at h0 h1
    refine ⟨?_, ?_, ?_⟩
    · simp only [refsOfC, lookupA_insertA_self]
      simp [List.count_append]
      omega
    · simp [refsOfC, lookupA_insertA_self]
      omega
    · intro d hd _
      rw [lookupA_insertA_self] at hd
      cases hd
      show (1 : Int) ≤ dmn.refs + 1
      omega
  · have hne := lookupA_insertA_ne c.daemons name n ⟨cm, dmn.refs + 1⟩ hn
    refine ⟨?_, ?_, ?_⟩
    · simp only [refsOfC, hne]
      have h3 := (hinv n).1
      simp only [refsOfC] at h3
      simpa [List.count_append, hn] using h3
    · simp only [refsOfC, hne]
      exact (hinv n).2.1
    · intro d hd hds
      rw [hne] at hd
      exact (hinv n).2.2 d hd hds

theorem coreInv_insert_keep (c : D1Core) (name : String) (dmn : D1Daemon) (cm : D1Cmd)
    (hl : lookupA c.daemons name = some dmn) (hst : dmn.cmd.started = true)
    (_hcm : cm.started = dmn.cmd.started) (h : coreInv c) :
    coreInv ⟨insertA c.daemons name ⟨cm, dmn.refs⟩, c.attempts, c.decs⟩ := by
  obtain ⟨hnd, hinv⟩ := h
  refine ⟨keysA_insertA_nodup _ _ _ hnd, ?_⟩
  intro n
  by_cases hn : n = name
  · subst hn
    have h0 := (hinv n).1
    have h1 := (hinv n).2.1
    have h2 := (hinv n).2.2 dmn hl hst
    simp only [refsOfC, hl] at h0 h1
    refine ⟨?_, ?_, ?_⟩
    · simp only [refsOfC, lookupA_insertA_self]
      exact h0
    · simp only [refsOfC, lookupA_insertA_self]
      exact h1
    · intro d hd _
      rw [lookupA_insertA_self] at hd
      cases hd
      exact h2
  · have hne := lookupA_insertA_ne c.daemons name n ⟨cm, dmn.refs⟩ hn
    refine ⟨?_, ?_, ?_⟩
    · simp only [refsOfC, hne]
      exact (hinv n).1
    · simp only [refsOfC, hne]
      exact (hinv n).2.1
    · intro d hd hds
      rw [hne] at hd
      exact (hinv n).2.2 d hd hds

theorem coreInv_insert_dec (c : D1Core) (name : String) (dmn : D1Daemon) (cm : D1Cmd)
    (hl : lookupA c.daemons name = some dmn) (hst : dmn.cmd.started = true)
    (_hcm : cm.started = dmn.cmd.started) (hnz : dmn.refs - 1 ≠ 0) (h : coreInv c) :
    coreInv ⟨insertA c.daemons name ⟨cm, dmn.refs - 1⟩, c.attempts, c.decs ++ [name]⟩ := by
  obtain ⟨hnd, hinv⟩ := h
  refine ⟨keysA_insertA_nodup _ _ _ hnd, ?_⟩
  intro n
  by_cases hn : n = name
  · subst hn
    have h0 := (hinv n).1
    have h2 := (hinv n).2.2 dmn hl hst
    simp only [refsOfC, hl] at h0
    refine ⟨?_, ?_, ?_⟩
    · simp only [refsOfC, lookupA_insertA_self]
      simp [List.count_append]
      omega
    · simp [refsOfC, lookupA_insertA_self]
      omega
    · intro d hd _
      rw [lookupA_insertA_self] at hd
      cases hd
      show (1 : Int) ≤ dmn.refs - 1
      omega
  · have hne := lookupA_insertA_ne c.daemons name n ⟨cm, dmn.refs - 1⟩ hn
    refine ⟨?_, ?_, ?_⟩
    · simp only [refsOfC, hne]
      have h3 := (hinv n).1
      simp only [refsOfC] at h3
      simpa [List.count_append, hn] using h3
    · simp only [refsOfC, hne]
      exact (hinv n).2.1
    · intro d hd hds
      rw [hne] at hd
      exact (hinv n).2.2 d hd hds

theorem coreInv_erase (c : D1Core) (name : String) (dmn : D1Daemon)
    (hl : lookupA c.daemons name = some dmn) (hone : dmn.refs = 1) (h : coreInv c) :
    coreInv ⟨eraseA c.daemons name, c.attempts, c.decs ++ [name]⟩ := by
  obtain ⟨hnd, hinv⟩ := h
  refine ⟨keysA_eraseA_nodup _ _ hnd, ?_⟩
  intro n
  by_cases hn : n = name
  · subst hn
    have h0 := (hinv n).1
    simp only [refsOfC, hl] at h0
    refine ⟨?_, ?_, ?_⟩
    · simp only [refsOfC, lookupA_eraseA_self]
      simp [List.count_append]
      omega
    · simp only [refsOfC, lookupA_eraseA_self]
      omega
    · intro d hd _
      rw [lookupA_eraseA_self] at hd
      cases hd
  · have hne := lookupA_eraseA_ne c.daemons name n hn
    refine ⟨?_, ?_, ?_⟩
    · simp only [refsOfC, hne]
      have h3 := (hinv n).1
      simp only [refsOfC] at h3
      simpa [List.count_append, hn] using h3
    · simp only [refsOfC, hne]
      exact (hinv n).2.1
    · intro d hd hds
      rw [hne] at hd
      exact (hinv n).2.2 d hd hds

/-- The reference-count invariant is preserved by every `part_001` call. -/
theorem D1Inv_step (s : D1State) (op : D1Op) (h : coreInv s.core) :
    coreInv (D1step s op).core := by
  cases op with
  | remove name => exact h
  | create name mk =>
    rcases D1create_core s name mk with hc | ⟨hl, cm, hcs, hc⟩
    · rw [D1step, hc]
      exact h
    · rw [D1step, hc]
      exact coreInv_insert_fresh s.core name cm hl hcs h
  | mount name env =>
    rcases D1mount_core s name env with hc | ⟨dmn, cm, hl, hc⟩
    · rw [D1step, hc]
      exact h
    · rw [D1step, hc]
      exact coreInv_insert_bump s.core name dmn cm hl h
  | unmount name w =>
    rcases D1unmount_core s name w with hc | ⟨dmn, hl, hst, hc | ⟨hnz, hc⟩ | ⟨hone, hc⟩⟩
    · rw [D1step, hc]
      exact h
    · rw [D1step, hc]
      exact coreInv_insert_keep s.core name dmn _ hl hst rfl h
    · rw [D1step, hc]
      exact coreInv_insert_dec s.core name dmn _ hl hst rfl hnz h
    · rw [D1step, hc]
      exact coreInv_erase s.core name dmn hl hone h

/-- The reference-count invariant holds in every reachable `part_001`
state. -/
theorem D1Inv_run (s : D1State) (ops : List D1Op) (h : coreInv s.core) :
    coreInv (D1run s ops).core := by
  induction ops generalizing s with
  | nil => exact h
  | cons op ops ih => exact ih (D1step s op) (D1Inv_step s op h)

/-- The invariant holds initially. -/
theorem D1Inv_init (root jwt : String) : coreInv (D1State.init root jwt).core := by
  refine ⟨by simp [D1State.init, D1State.core], ?_⟩
  intro n
  refine ⟨by simp [D1State.init, D1State.core, refsOfC, lookupA], by simp [D1State.init, D1State.core, refsOfC, lookupA], ?_⟩
  intro d hd
  simp [D1State.init, D1State.core, lookupA] at hd

/-! ## Claims -/

/-- C1, counterexample. The claim asserts at most one daemon registry
entry per bucket (bucket of a name = its segment before the first `/`).
The refcounted variant keys its registry by the full volume name and never
derives a bucket, so `Create "b/x"` followed by `Create "b/y"` leaves two
registry entries whose names both have bucket `"b"`. -/
theorem C1_counterexample :
    ¬ ((keysA (D1run D0 [.create "b/x" true, .create "b/y" true]).daemons).countP
        (fun n => bucket n == "b") ≤ 1) := by
  decide

/-- C1, amended. In the bucket-keyed driver of `main.go`, at most one
registry entry exists per bucket in every reachable state, and a `Mount`
for a bucket whose entry already exists and has not exited leaves the
state (registry, spawned processes) completely unchanged — no new
subprocess is spawned. In the refcounted variant the uniqueness is per
volume name, not per bucket. -/
theorem C1_theorem (root : String) (extra : List String) (opsM : List MOp)
    (rootD jwtD : String) (opsD : List D1Op) :
    ((∀ b : String, (keysA (Mrun (MState.init root extra) opsM).cmds).count b ≤ 1) ∧
     (∀ (name : String) (env : MEnv) (c : MCmd),
        lookupA (Mrun (MState.init root extra) opsM).cmds (bucket name) = some c →
        psExited c.processState = false →
        (M.mount (Mrun (MState.init root extra) opsM) name env).1 =
          Mrun (MState.init root extra) opsM)) ∧
    (∀ n : String, (keysA (D1run (D1State.init rootD jwtD) opsD).daemons).count n ≤ 1) := by
  refine ⟨⟨?_, ?_⟩, ?_⟩
  · intro b
    have h := M_nodup_run (MState.init root extra) opsM (by simp [MState.init])
    exact List.nodup_iff_count_le_one.mp h b
  · intro name env c hl _
    exact M_mount_frame _ name env c hl
  · intro n
    have h := (D1Inv_run (D1State.init rootD jwtD) opsD (D1Inv_init rootD jwtD)).1
    exact List.nodup_iff_count_le_one.mp h n

/-- C1, witness for the amended theorem at a concrete run. -/
theorem C1_witness :
    ((keysA (Mrun (MState.init "/r" []) [.mount "b" (.firstLine sentinel)]).cmds).count "b" ≤ 1) ∧
    (M.mount (Mrun (MState.init "/r" []) [.mount "b" (.firstLine sentinel)]) "b"
        (.firstLine sentinel)).1 =
      Mrun (MState.init "/r" []) [.mount "b" (.firstLine sentinel)] ∧
    ((keysA (D1run (D1State.init "/r" "") [.create "b" true]).daemons).count "b" ≤ 1) := by
  have h := C1_theorem "/r" [] [.mount "b" (.firstLine sentinel)] "/r" "" [.create "b" true]
  exact ⟨h.1.1 "b",
    h.1.2 "b" (.firstLine sentinel) ⟨["b", "/r/b"], false, none⟩ rfl rfl,
    h.2 "b"⟩

/-- C2, counterexample. The claim asserts `Mount` succeeds only if the
first line is *exactly* the sentinel. The code checks
`strings.HasSuffix`, so a line that merely ends with the sentinel also
succeeds. -/
theorem C2_counterexample :
    (M.mount M0 "b2" (.firstLine lineNoisy)).2 = .ok "/r/b2" ∧ lineNoisy ≠ sentinel := by
  exact ⟨rfl, by decide⟩

/-- C2, amended. For a bucket with no registry entry (`main.go`) or a
freshly created, unstarted entry (`part_001`), a `Mount` that reads first
line `l` succeeds with the mountpoint if and only if `l` *ends with* the
sentinel; otherwise it fails with an error carrying the literal line. -/
theorem C2_theorem :
    (∀ (s : MState) (name l : String),
      lookupA s.cmds (bucket name) = none →
      (M.mount s name (.firstLine l)).2 =
        (if strHasSuffix l sentinel then .ok (M.mountpoint s name)
         else .error (.unexpectedOutput l))) ∧
    (∀ (s : D1State) (name l : String) (d : D1Daemon),
      lookupA s.daemons name = some d →
      d.cmd.processState = none → d.cmd.stderrSet = false → d.cmd.started = false →
      (D1.mount s name (.firstLine l)).2 =
        (if strHasSuffix l sentinel then .ok (D1.mountpoint s name)
         else .error (.unexpectedOutput l))) := by
  constructor
  · intro s name l hl
    unfold M.mount
    by_cases hs : strHasSuffix l sentinel
    · simp [hl, hs]
    · simp [hl, hs]
  · intro s name l d hl hps hse hst
    unfold D1.mount
    by_cases hs : strHasSuffix l sentinel
    · simp [hl, hps, hse, hst, psExited, hs]
    · simp [hl, hps, hse, hst, psExited, hs]

/-- C2, witness at concrete inputs (sentinel line succeeds in both
variants; a bad line fails carrying its text). -/
theorem C2_witness :
    (M.mount M0 "bw" (.firstLine sentinel)).2 = .ok "/r/bw" ∧
    (M.mount M0 "bw" (.firstLine lineBad)).2 = .error (.unexpectedOutput lineBad) ∧
    (D1.mount (D1.create D0 "bw" true).1 "bw" (.firstLine sentinel)).2 = .ok "/r/bw" := by
  have h := C2_theorem
  refine ⟨?_, ?_, ?_⟩
  · exact (h.1 M0 "bw" sentinel rfl).trans (by rfl)
  · exact (h.1 M0 "bw" lineBad rfl).trans (by rfl)
  · exact (h.2 (D1.create D0 "bw" true).1 "bw" sentinel
      ⟨⟨["bw", "/r/bw"], false, false, false, none⟩, 0⟩ rfl rfl rfl rfl).trans (by rfl)

/-- C3, code-bug evaluation. After `Create b1`, a successful `Mount b1`,
a second `Mount b1` (which fails its pipe setup but still bumps `refs` to
2), and one `Unmount b1` with a clean wait, the `part_001` driver has
signalled and reaped the subprocess (`sigints = [b1]`, no live process
left) even though the remaining reference count is 1. The refcount design
and the claim require the decrement first and a signal only when the
count reaches zero. -/
theorem C3_theorem :
    refsOf (D1run D0 C3ops) "b1" = 1 ∧
    (D1run D0 C3ops).sigints = ["b1"] ∧
    (D1run D0 C3ops).live = [] := by
  exact ⟨rfl, rfl, rfl⟩

/-- C4, counterexample. The claim asserts `refCount` equals successful
mounts minus completed unmounts. A `Mount` whose first line is not the
sentinel fails but has already incremented `refs`, so after `Create b4`
and one failed `Mount b4` the count is 1 while no mount succeeded. -/
theorem C4_counterexample :
    ¬ (refsOf (D1run D0 C4ops) "b4" =
        ((D1run D0 C4ops).mountOks.count "b4" : Int) -
        ((D1run D0 C4ops).unmountOks.count "b4" : Int)) := by
  decide

/-- C4, amended. In every reachable `part_001` state, the registered
count of a name equals the number of `Mount` calls for it that passed the
existence and zombie checks (and so executed `refs++`, whether or not the
mount then succeeded) minus the number of `Unmount` calls that completed
a clean wait and executed `refs--`; the count is never negative. -/
theorem C4_theorem (root jwt : String) (ops : List D1Op) (n : String) :
    refsOf (D1run (D1State.init root jwt) ops) n =
      ((D1run (D1State.init root jwt) ops).attempts.count n : Int) -
      ((D1run (D1State.init root jwt) ops).decs.count n : Int) ∧
    0 ≤ refsOf (D1run (D1State.init root jwt) ops) n := by
  have h := (D1Inv_run (D1State.init root jwt) ops (D1Inv_init root jwt)).2 n
  exact ⟨h.1, h.2.1⟩

/-- C5, counterexample. The claim asserts the mountpoint returned by
`Mount` is `root` joined with the bucket segment only. `main.go` returns
`mountpoint(r.Name)` — the *full* name — so mounting `mybucket/myobj`
returns `/r/mybucket/myobj`, not `/r/mybucket`. -/
theorem C5_counterexample :
    (M.mount M0 "mybucket/myobj" (.firstLine sentinel)).2 = .ok "/r/mybucket/myobj" ∧
    "/r/mybucket/myobj" ≠ "/r/mybucket" := by
  exact ⟨rfl, by decide⟩

/-- C5, amended. A fresh successful `Mount` returns `root` joined with
the full requested name (as do `Path` and `Get`); only the directory
created for and passed to the spawned `gcsfuse` command uses the bucket
segment, `root/bucket`. -/
theorem C5_theorem (s : MState) (name l : String)
    (hl : lookupA s.cmds (bucket name) = none)
    (hs : strHasSuffix l sentinel = true) :
    (M.mount s name (.firstLine l)).2 = .ok (goJoin s.root name) ∧
    lookupA (M.mount s name (.firstLine l)).1.cmds (bucket name) =
      some ⟨s.extra ++ [bucket name, goJoin s.root (bucket name)], false, none⟩ ∧
    (M.path s name).2 = .ok (goJoin s.root name) ∧
    (M.get s name).2 = .ok (name, goJoin s.root name) := by
  refine ⟨?_, ?_, rfl, rfl⟩
  · unfold M.mount
    simp [hl, hs, M.mountpoint]
  · unfold M.mount
    simp [hl, hs, lookupA_insertA_self, M.mountpoint]

/-- C5, witness at the concrete name `mybucket/myobj`. -/
theorem C5_witness :
    (M.mount M0 "mybucket/myobj" (.firstLine sentinel)).2 = .ok "/r/mybucket/myobj" ∧
    lookupA (M.mount M0 "mybucket/myobj" (.firstLine sentinel)).1.cmds "mybucket" =
      some ⟨["mybucket", "/r/mybucket"], false, none⟩ ∧
    (M.path M0 "mybucket/myobj").2 = .ok "/r/mybucket/myobj" ∧
    (M.get M0 "mybucket/myobj").2 = .ok ("mybucket/myobj", "/r/mybucket/myobj") := by
  have h := C5_theorem M0 "mybucket/myobj" sentinel rfl rfl
  exact ⟨h.1, h.2.1.trans rfl, h.2.2.1, h.2.2.2⟩

/-- C6, counterexample. The claim asserts a failed-sentinel mount leaves
the registry entry present. In `main.go` the command is stored only
*after* the sentinel check, so a failed mount leaves no entry for the
bucket at all (and the spawned process runs on untracked). -/
theorem C6_counterexample :
    (M.mount M0 "b6" (.firstLine lineBad)).2 = .error (.unexpectedOutput lineBad) ∧
    lookupA (M.mount M0 "b6" (.firstLine lineBad)).1.cmds "b6" = none := by
  exact ⟨rfl, rfl⟩

/-- C6, amended. In the refcounted variant (`part_001`), whose entries are
pre-registered by `Create`, a failed-sentinel `Mount` leaves the entry
present (started, refs bumped, not marked mounted in any way), and any
subsequent `Mount` of that name observes the entry and spawns nothing —
it fails with the bad-read error. In `main.go` the entry is registered
only after the sentinel check, so a failed mount leaves no entry. -/
theorem C6_theorem :
    (∀ (s : D1State) (name l : String) (d : D1Daemon),
       lookupA s.daemons name = some d → psExited d.cmd.processState = false →
       d.cmd.stderrSet = false → d.cmd.started = false →
       strHasSuffix l sentinel = false →
       lookupA (D1.mount s name (.firstLine l)).1.daemons name =
         some ⟨⟨d.cmd.args, true, true, d.cmd.waited, d.cmd.processState⟩, d.refs + 1⟩ ∧
       (D1.mount s name (.firstLine l)).2 = .error (.unexpectedOutput l)) ∧
    (∀ (s : D1State) (name : String) (env : StartEnv) (d : D1Daemon),
       lookupA s.daemons name = some d → psExited d.cmd.processState = false →
       d.cmd.stderrSet = true →
       (D1.mount s name env).1.live = s.live ∧
       (D1.mount s name env).2 = .error .badRead) ∧
    (∀ (s : MState) (name l : String),
       lookupA s.cmds (bucket name) = none → strHasSuffix l sentinel = false →
       lookupA (M.mount s name (.firstLine l)).1.cmds (bucket name) = none) := by
  refine ⟨?_, ?_, ?_⟩
  · intro s name l d hl hps hse hst hs
    unfold D1.mount
    simp [hl, hps, hse, hst, hs, lookupA_insertA_self, insertA_insertA]
  · intro s name env d hl hps hse
    unfold D1.mount
    simp [hl, hps, hse]
  · intro s name l hl hs
    unfold M.mount
    simp [hl, hs]

/-- C6, witness: the concrete failed mount of `b6`, its retry, and the
contrasting `main.go` behavior. -/
theorem C6_witness :
    lookupA C6st.daemons "b6" =
      some ⟨⟨["b6", "/r/b6"], true, true, false, none⟩, 1⟩ ∧
    (D1.mount C6st "b6" (.firstLine sentinel)).1.live = C6st.live ∧
    (D1.mount C6st "b6" (.firstLine sentinel)).2 = .error .badRead ∧
    lookupA (M.mount M0 "b6" (.firstLine lineBad)).1.cmds "b6" = none := by
  have h := C6_theorem
  have h1 := h.1 (D1.create D0 "b6" true).1 "b6" lineBad
    ⟨⟨["b6", "/r/b6"], false, false, false, none⟩, 0⟩ rfl rfl rfl rfl rfl
  have h2 := h.2.1 C6st "b6" (.firstLine sentinel)
    ⟨⟨["b6", "/r/b6"], true, true, false, none⟩, 1⟩ rfl rfl rfl
  exact ⟨h1.1, h2.1, h2.2, h.2.2 M0 "b6" lineBad rfl rfl⟩

/-- C7, counterexample. The claim asserts the entry is removed from the
registry even when the awaited subprocess exits dirty. In `part_001` the
dirty-exit branch returns *before* the decrement and delete, so the entry
is still present afterwards. -/
theorem C7_counterexample :
    (D1.unmount C7st "b7" (some false)).2 = .err .daemonDirty ∧
    lookupA (D1.unmount C7st "b7" (some false)).1.daemons "b7" =
      some ⟨⟨["b7", "/r/b7"], true, true, true, none⟩, 1⟩ := by
  exact ⟨rfl, rfl⟩

/-- C7, amended. When the awaited subprocess exits non-successfully,
`Unmount` reports the dirty-daemon error and returns early: the count is
not decremented and the entry stays registered (only its process is now
reaped). The entry is removed only when a clean wait lets the count reach
zero. -/
theorem C7_theorem (s : D1State) (name : String) (d : D1Daemon)
    (hl : lookupA s.daemons name = some d) (hst : d.cmd.started = true)
    (hw : d.cmd.waited = false) :
    ((D1.unmount s name (some false)).2 = .err .daemonDirty ∧
     lookupA (D1.unmount s name (some false)).1.daemons name =
       some ⟨{d.cmd with waited := true}, d.refs⟩) ∧
    (d.refs = 1 →
      (D1.unmount s name (some true)).2 = .ok ∧
      lookupA (D1.unmount s name (some true)).1.daemons name = none) := by
  constructor
  · constructor
    · unfold D1.unmount
      simp [hl, hst, hw]
    · unfold D1.unmount
      simp [hl, hst, hw, lookupA_insertA_self]
  · intro hone
    constructor
    · unfold D1.unmount
      simp [hl, hst, hw, hone]
    · unfold D1.unmount
      simp [hl, hst, hw, hone, insertA_insertA, eraseA_insertA, lookupA_eraseA_self]

/-- C7, witness at the concrete mounted volume `b7`. -/
theorem C7_witness :
    (D1.unmount C7st "b7" (some false)).2 = .err .daemonDirty ∧
    (D1.unmount C7st "b7" (some true)).2 = .ok ∧
    lookupA (D1.unmount C7st "b7" (some true)).1.daemons "b7" = none := by
  have h := C7_theorem C7st "b7" ⟨⟨["b7", "/r/b7"], true, true, false, none⟩, 1⟩ rfl rfl rfl
  exact ⟨h.1.1, (h.2 rfl).1, (h.2 rfl).2⟩

/-- C8, counterexample. The claim asserts an `Unmount` of a name whose
bucket has no entry is a no-op returning success in both variants. The
refcounted variant returns the unknown-volume error instead (the state is
indeed unchanged). -/
theorem C8_counterexample :
    (D1.unmount D0 "b8" (some true)).2 = .err .unknownVolume ∧
    (D1.unmount D0 "b8" (some true)).1 = D0 ∧
    URes.err .unknownVolume ≠ URes.ok := by
  exact ⟨rfl, rfl, by decide⟩

/-- C8, amended. `main.go`'s `Unmount` is unconditionally a stateless
no-op returning success; `part_001`'s `Unmount` of an unregistered name
returns the unknown-volume error, leaving the state unchanged. -/
theorem C8_theorem :
    (∀ (s : MState) (name : String), M.unmount s name = (s, .ok ())) ∧
    (∀ (s : D1State) (name : String) (w : WaitRes),
       lookupA s.daemons name = none → D1.unmount s name w = (s, .err .unknownVolume)) := by
  constructor
  · intro s name
    rfl
  · intro s name w hl
    unfold D1.unmount
    simp [hl]

/-- C8, witness at concrete states. -/
theorem C8_witness :
    M.unmount M0 "b8" = (M0, .ok ()) ∧
    D1.unmount D0 "b8" (some true) = (D0, .err .unknownVolume) := by
  have h := C8_theorem
  exact ⟨h.1 M0 "b8", h.2 D0 "b8" (some true) rfl⟩

/-- C9, counterexample. The claim asserts `Remove` is a no-op for every
volume name in both variants. `main.go`'s `Remove` signals the bucket's
subprocess with an interrupt and waits for it, and reports a dirty exit
as an error. -/
theorem C9_counterexample :
    (M.remove C9st "b9" (some false)).2 = .error .daemonDirty ∧
    (M.remove C9st "b9" (some false)).1.sigints = ["b9"] := by
  exact ⟨rfl, rfl⟩

/-- C9, amended. `Remove` is a stateless no-op returning success in the
refcounted variant only; in `main.go`, `Remove` of a bucket with an entry
signals the subprocess and waits for it (reporting wait errors and dirty
exits), and on no path does it delete a registry entry. -/
theorem C9_theorem :
    (∀ (s : D1State) (name : String), D1.remove s name = (s, .ok)) ∧
    (∀ (s : MState) (name : String) (w : WaitRes),
       keysA (M.remove s name w).1.cmds = keysA s.cmds) ∧
    (∀ (s : MState) (name : String) (d : MCmd),
       lookupA s.cmds (bucket name) = some d → d.waited = false →
       (M.remove s name (some false)).1.sigints = s.sigints ++ [bucket name] ∧
       (M.remove s name (some false)).2 = .error .daemonDirty) := by
  refine ⟨?_, ?_, ?_⟩
  · intro s name
    rfl
  · intro s name w
    unfold M.remove
    cases hlk : lookupA s.cmds (bucket name) with
    | none => simp [hlk]
    | some d =>
      by_cases hw : d.waited
      · simp [hlk, hw]
      · cases w with
        | none => simp [hlk, hw]
        | some success =>
          by_cases hs : success
          · simp [hlk, hw, hs,
              keysA_insertA_of_lookupA s.cmds (bucket name) {d with waited := true} d hlk]
          · simp [hlk, hw, hs,
              keysA_insertA_of_lookupA s.cmds (bucket name) {d with waited := true} d hlk]
  · intro s name d hl hw
    constructor
    · unfold M.remove
      simp [hl, hw]
    · unfold M.remove
      simp [hl, hw]

/-- C9, witness at concrete states. -/
theorem C9_witness :
    D1.remove D0 "b9" = (D0, .ok) ∧
    keysA (M.remove C9st "b9" (some false)).1.cmds = keysA C9st.cmds ∧
    (M.remove C9st "b9" (some false)).1.sigints = C9st.sigints ++ ["b9"] ∧
    (M.remove C9st "b9" (some false)).2 = .error .daemonDirty := by
  have h := C9_theorem
  have h3 := h.2.2 C9st "b9" ⟨["b9", "/r/b9"], false, none⟩ rfl rfl
  exact ⟨h.1 D0 "b9", h.2.1 C9st "b9" (some false), h3.1, h3.2⟩

/-- C10, confirmed. For every state and every volume name — registered or
not — `main.go`'s `Get` and `Path` succeed, leave the state untouched,
and report the mountpoint `filepath.Join(root, name)` of the full
requested name, reading neither the registry nor the filesystem. -/
theorem C10_theorem (s : MState) (name : String) :
    M.get s name = (s, .ok (name, goJoin s.root name)) ∧
    M.path s name = (s, .ok (goJoin s.root name)) := by
  exact ⟨rfl, rfl⟩

end GCSVol
